import Mathlib

set_option maxRecDepth 10000

/-!
# Shallow embedding of the `auth` package of go-microservice-commons

This file embeds `src/auth/jwt.go` (the `JwtWrapper` type with
`NewJwtWrapper`, `GenerateToken`, `ValidateToken`) together with the
behaviour of the `github.com/golang-jwt/jwt/v4` library functions it
calls (`jwt.NewWithClaims(...).SignedString`, `jwt.ParseWithClaims`)
closely following the v4 parser: split the token on `.` into three
segments, base64url-decode and deserialize header and claims, look up
the signing method declared in the header, run the key function (which
pins the method to the HMAC family), validate the registered claims
(expiration), and verify the signature, accumulating the claim-validation
and signature flags into one validation error.

Modelling decisions:
* Time is `Int` seconds (the JWT `exp` NumericDate granularity).
* Bytes are `Nat` values `< 256`; base64url (RFC 4648, unpadded) is
  implemented concretely.  Decoding follows Go's default non-strict
  behaviour used by golang-jwt v4: a segment of length ≡ 1 (mod 4) is
  invalid, and nonzero trailing bits in the final partial group are
  ignored rather than rejected.
* JSON serialization of the header and of the claims struct is modelled
  as a concrete injective byte serialization with a concrete partial
  inverse (`encChars`/`parseChars`, `encExp`/`parseExp`); the JSON
  grammar itself is not modelled.
* HMAC-SHA256/384/512 is modelled symbolically as `mac`, an injective
  function of the algorithm name, the secret and the message (the
  standard symbolic idealization of a collision-resistant MAC).
-/

namespace JwtGo

/-! ## Definitions: the embedded data model and operations -/

/-- The base64url alphabet. -/
def alphabet : List Char :=
  "ABCDEFGHIJKLMNOPQRSTUVWXYZabcdefghijklmnopqrstuvwxyz0123456789-_".toList

/-- Character of a 6-bit group. -/
def b64char (n : Nat) : Char := alphabet.getD n 'A'

/-- Index of a character in a list of characters. -/
def findIdx : Char → List Char → Option Nat
  | _, [] => none
  | c, a :: as => if a = c then some 0 else (findIdx c as).map (· + 1)

/-- Value of a base64url character. -/
def b64val (c : Char) : Option Nat := findIdx c alphabet

/-- Unpadded base64url encoding of a byte sequence. -/
def b64encode : List Nat → List Char
  | [] => []
  | [b1] => [b64char (b1 / 4), b64char (b1 % 4 * 16)]
  | [b1, b2] =>
    [b64char (b1 / 4), b64char (b1 % 4 * 16 + b2 / 16), b64char (b2 % 16 * 4)]
  | b1 :: b2 :: b3 :: rest =>
    b64char (b1 / 4) :: b64char (b1 % 4 * 16 + b2 / 16) ::
      b64char (b2 % 16 * 4 + b3 / 64) :: b64char (b3 % 64) :: b64encode rest

/-- Unpadded base64url decoding, Go `encoding/base64` non-strict style:
a length ≡ 1 (mod 4) fails, and the unused low bits of the final
character of a partial group are ignored (not required to be zero). -/
def b64decode : List Char → Option (List Nat)
  | [] => some []
  | [_] => none
  | [c1, c2] => do
    let v1 ← b64val c1
    let v2 ← b64val c2
    pure [v1 * 4 + v2 / 16]
  | [c1, c2, c3] => do
    let v1 ← b64val c1
    let v2 ← b64val c2
    let v3 ← b64val c3
    pure [v1 * 4 + v2 / 16, v2 % 16 * 16 + v3 / 4]
  | c1 :: c2 :: c3 :: c4 :: rest => do
    let v1 ← b64val c1
    let v2 ← b64val c2
    let v3 ← b64val c3
    let v4 ← b64val c4
    let ds ← b64decode rest
    pure ((v1 * 4 + v2 / 16) :: (v2 % 16 * 16 + v3 / 4) :: (v3 % 4 * 64 + v4) :: ds)

/-- Serialize a character sequence: three bytes (big-endian codepoint)
per character, a `255` terminator (never the first byte of a character,
since codepoints are below `0x110000`). -/
def encChars : List Char → List Nat
  | [] => [255]
  | ch :: cs => ch.toNat / 65536 :: ch.toNat / 256 % 256 :: ch.toNat % 256 :: encChars cs

/-- Partial inverse of `encChars`; returns the remaining bytes. -/
def parseChars : List Nat → Option (List Char × List Nat)
  | [] => none
  | [b] => if b = 255 then some ([], []) else none
  | [b, b1] => if b = 255 then some ([], [b1]) else none
  | b :: b1 :: b2 :: rest2 =>
    if b = 255 then some ([], b1 :: b2 :: rest2)
    else
      match parseChars rest2 with
      | some (cs, r) => some (Char.ofNat (b * 65536 + b1 * 256 + b2) :: cs, r)
      | none => none

/-- Little-endian base-255 digits, with explicit fuel so that the
definition is structurally recursive (and so kernel-reducible). -/
def digits255F : Nat → Nat → List Nat
  | 0, _ => []
  | fuel + 1, n => if n = 0 then [] else n % 255 :: digits255F fuel (n / 255)

/-- Little-endian base-255 digits of a natural number. -/
def digits255 (n : Nat) : List Nat := digits255F n n

/-- Read base-255 digits up to the `255` terminator. -/
def parseDigits : List Nat → Option (Nat × List Nat)
  | [] => none
  | b :: rest =>
    if b = 255 then some (0, rest)
    else
      match parseDigits rest with
      | some (n, r) => some (b + 255 * n, r)
      | none => none

/-- Serialize an optional expiration timestamp (`*jwt.NumericDate`):
absence marker, or presence marker, sign byte and magnitude digits. -/
def encExp : Option Int → List Nat
  | none => [0]
  | some n =>
    if n < 0 then 1 :: 1 :: (digits255 n.natAbs ++ [255])
    else 1 :: 0 :: (digits255 n.natAbs ++ [255])

/-- Partial inverse of `encExp`. -/
def parseExp : List Nat → Option (Option Int × List Nat)
  | [] => none
  | 0 :: r => some (none, r)
  | 1 :: 0 :: r =>
    (match parseDigits r with
      | some (n, r2) => some (some (n : Int), r2)
      | none => none)
  | 1 :: 1 :: r =>
    (match parseDigits r with
      | some (n, r2) => some (some (-(n : Int)), r2)
      | none => none)
  | _ => none

/-- `JwtWrapper` wraps the signing key and the issuer
(`src/auth/jwt.go` lines 15-20).  `ExpirationHours` is Go `int64`. -/
structure JwtWrapper where
  SecretKey : String
  Issuer : String
  ExpirationHours : Int
deriving DecidableEq

/-- `JwtClaim` (`src/auth/jwt.go` lines 22-27): `ID`, `Email`, plus the
fields of the embedded `jwt.RegisteredClaims` that the package reads or
writes (`ExpiresAt` as seconds, `Issuer`). -/
structure JwtClaim where
  ID : String
  Email : String
  Issuer : String
  ExpiresAt : Option Int
deriving DecidableEq

/-- Serialize a string (three bytes per character plus terminator). -/
def encStr (s : String) : List Nat := encChars s.data

/-- Model of `json.Marshal` of the token header `{"alg": alg, "typ": "JWT"}`:
what it determines is the algorithm name. -/
def headerBytes (alg : String) : List Nat := encStr alg

/-- Model of decoding the header segment: recover the declared algorithm. -/
def parseHeader (bs : List Nat) : Option String :=
  match parseChars bs with
  | some (cs, []) => some (String.mk cs)
  | _ => none

/-- Model of `json.Marshal` of a `JwtClaim` value. -/
def claimsBytes (c : JwtClaim) : List Nat :=
  encStr c.ID ++ encStr c.Email ++ encStr c.Issuer ++ encExp c.ExpiresAt

/-- Model of `json.Unmarshal` of the claims segment into `JwtClaim`. -/
def parseClaims (bs : List Nat) : Option JwtClaim :=
  match parseChars bs with
  | some (idc, r1) =>
    match parseChars r1 with
    | some (em, r2) =>
      match parseChars r2 with
      | some (iss, r3) =>
        match parseExp r3 with
        | some (e, []) => some ⟨String.mk idc, String.mk em, String.mk iss, e⟩
        | _ => none
      | none => none
    | none => none
  | none => none

/-- Symbolic model of the HMAC-SHA-2 family: `mac alg secret msg` stands
for HMAC-SHA256/384/512 (per `alg`) of `msg` under key `secret`.  It is
modelled as an injective function of the triple — the standard symbolic
idealization of a collision-resistant MAC. -/
def mac (alg secret : String) (msg : List Nat) : List Nat :=
  encStr alg ++ (encStr secret ++ msg)

/-- Go's `strings.Split` on the separator `"."`. -/
def splitOnDot : List Char → List (List Char)
  | [] => [[]]
  | c :: rest =>
    if c = '.' then [] :: splitOnDot rest
    else
      match splitOnDot rest with
      | [] => [[c]]
      | seg :: segs => (c :: seg) :: segs

/-- `NewJwtWrapper` (`src/auth/jwt.go` lines 29-47): rejects an empty
secret key, an empty issuer, and `expirationHours == 0` — and only
those. -/
def newJwtWrapper (secretKey issuer : String) (expirationHours : Int) :
    Except String JwtWrapper :=
  if secretKey = "" then .error "secret key must be set"
  else if issuer = "" then .error "issuer must be set"
  else if expirationHours = 0 then .error "expiration hours must be greater than 0"
  else .ok ⟨secretKey, issuer, expirationHours⟩

/-- `jwt.NewWithClaims(method, claims).SignedString(secret)`: the two
base64url segments joined by `.`, then the MAC of that signing input
(as in RFC 7515), base64url-encoded and appended. -/
def signedString (alg : String) (secret : String) (c : JwtClaim) : List Char :=
  let hSeg := b64encode (headerBytes alg)
  let cSeg := b64encode (claimsBytes c)
  hSeg ++ '.' :: cSeg ++ '.' ::
    b64encode (mac alg secret ((hSeg ++ '.' :: cSeg).map Char.toNat))

/-- Reduction of an unbounded integer to Go `int64` two's-complement:
the value congruent mod `2^64` lying in `[-2^63, 2^63)`. -/
def int64Wrap (n : Int) : Int :=
  (n + 9223372036854775808) % 18446744073709551616 - 9223372036854775808

/-- The expiration offset in seconds produced by
`time.Hour * time.Duration(expirationHours)`: the product is `int64`
nanosecond arithmetic, which wraps for `|hours| ≥ 2562048`; the
resulting duration is added to the current time and the claim is
serialized at second precision (`time.Unix`, i.e. floor). -/
def hoursToSeconds (hours : Int) : Int :=
  (int64Wrap (3600000000000 * hours)).fdiv 1000000000

/-- `GenerateToken` (`src/auth/jwt.go` lines 49-68): builds a `JwtClaim`
with `ExpiresAt` at `now` plus `time.Hour * ExpirationHours` (`int64`
arithmetic, see `hoursToSeconds`) and `Issuer` from the wrapper, and
signs it with `jwt.SigningMethodHS256` under the secret.  `now` is the
current time in seconds. -/
def generateToken (j : JwtWrapper) (now : Int) (uuid email : String) : List Char :=
  signedString "HS256" j.SecretKey
    ⟨uuid, email, j.Issuer, some (now + hoursToSeconds j.ExpirationHours)⟩

/-- The signing methods registered by golang-jwt v4 whose type is
`*jwt.SigningMethodHMAC` — exactly those pass the key function's
`token.Method.(*jwt.SigningMethodHMAC)` type assertion
(`src/auth/jwt.go` lines 76-79). -/
def isHMACAlg (alg : String) : Bool :=
  alg = "HS256" || alg = "HS384" || alg = "HS512"

/-- Validation-error taxonomy of a `ValidateToken` call, following the
golang-jwt v4 parser and the wrapper's own error paths. -/
inductive VErr where
  /-- `jwt.ValidationErrorMalformed`: not three segments, or a segment
  fails to base64-decode or to unmarshal. -/
  | malformed : VErr
  /-- `jwt.ValidationErrorUnverifiable`: the declared algorithm is
  unregistered, or the key function rejected the signing method. -/
  | unsupportedAlg : VErr
  /-- A `jwt.ValidationError` accumulating the claim-validation result
  (`expired`) and the signature-verification result (`sigInvalid`);
  produced only when at least one flag is set. -/
  | validation (expired sigInvalid : Bool) : VErr
  /-- The wrapper's `errors.New("couldn't parse claims")` (the
  `token.Claims.(*JwtClaim)` type assertion; unreachable since parsing
  always fills a `*JwtClaim`). -/
  | claimsCast : VErr
  /-- The wrapper's `errors.New("jwt is expired")` from its own
  `claims.ExpiresAt.Before(time.Now())` re-check. -/
  | manualExpired : VErr
deriving DecidableEq

/-- `jwt.RegisteredClaims.Valid()` at time `now`: with only `ExpiresAt`
set, valid iff `ExpiresAt` is absent (not required) or `now` is strictly
before it (`verifyExp` uses `now.Before(*exp)`). -/
def claimsValid (now : Int) (exp : Option Int) : Bool :=
  match exp with
  | none => true
  | some e => now < e

/-- `jwt.ParseWithClaims(signedToken, &JwtClaim{}, keyFunc)` as called by
`ValidateToken`, following the v4 `Parser.ParseWithClaims`:
`ParseUnverified` (split into three segments, decode header, decode
claims, look up the method declared in the header), then the key
function (which pins the method to the HMAC family and only then
releases the secret), then claims validation and signature verification,
whose failures are accumulated into one validation error. -/
def parseWithClaims (secret : String) (now : Int) (tok : List Char) :
    Except VErr JwtClaim :=
  match splitOnDot tok with
  | [hSeg, cSeg, sSeg] =>
    match b64decode hSeg with
    | none => .error .malformed
    | some hb =>
      match parseHeader hb with
      | none => .error .malformed
      | some alg =>
        match b64decode cSeg with
        | none => .error .malformed
        | some cb =>
          match parseClaims cb with
          | none => .error .malformed
          | some claims =>
            if isHMACAlg alg then
              let expired := ! claimsValid now claims.ExpiresAt
              let sigOk := b64decode sSeg
                == some (mac alg secret ((hSeg ++ '.' :: cSeg).map Char.toNat))
              if expired || ! sigOk then .error (.validation expired (! sigOk))
              else .ok claims
            else .error .unsupportedAlg
  | _ => .error .malformed

/-- `ValidateToken` (`src/auth/jwt.go` lines 70-98): parse and verify via
`jwt.ParseWithClaims`, then re-check expiration (`ExpiresAt != nil &&
ExpiresAt.Before(now)`).  Result is the Go pair `(*JwtClaim, error)`. -/
def validateToken (j : JwtWrapper) (now : Int) (signedToken : List Char) :
    Option JwtClaim × Option VErr :=
  match parseWithClaims j.SecretKey now signedToken with
  | .error e => (none, some e)
  | .ok claims =>
    match claims.ExpiresAt with
    | some e => if e < now then (none, some .manualExpired) else (some claims, none)
    | none => (some claims, none)

/-- The signing input of a token: `headerSegment ++ "." ++ claimsSegment`
as bytes. -/
def msgOf (alg : String) (c : JwtClaim) : List Nat :=
  (b64encode (headerBytes alg) ++ '.' :: b64encode (claimsBytes c)).map Char.toNat

/-- Flip bit `k` of a character's code. -/
def flipChar (c : Char) (k : Nat) : Char := Char.ofNat (c.toNat ^^^ (1 <<< k))

/-- Flip bit `k` of the character at position `p`. -/
def flipBitAt (cs : List Char) (p k : Nat) : List Char :=
  cs.set p (flipChar (cs.getD p 'A') k)

/-- The structural-parse failure condition of `Validate` Step 1: the
input is not three dot-separated segments whose header and claims
segments base64url-decode and deserialize to the expected structures
(the signature segment is not part of the structural parse). -/
def malformedInput (tok : List Char) : Bool :=
  match splitOnDot tok with
  | [hSeg, cSeg, _] =>
    match b64decode hSeg with
    | none => true
    | some hb =>
      match parseHeader hb with
      | none => true
      | some _ =>
        match b64decode cSeg with
        | none => true
        | some cb =>
          match parseClaims cb with
          | none => true
          | some _ => false
  | _ => true

/-! ## Theorems -/

theorem int64Wrap_eq {n : Int} (h1 : -9223372036854775808 ≤ n)
    (h2 : n < 9223372036854775808) : int64Wrap n = n := by
  unfold int64Wrap
  rw [Int.emod_eq_of_lt (by omega) (by omega)]
  omega

theorem hoursToSeconds_eq (hours : Int) (hb1 : -2562047 ≤ hours)
    (hb2 : hours ≤ 2562047) : hoursToSeconds hours = 3600 * hours := by
  unfold hoursToSeconds
  rw [int64Wrap_eq (by omega) (by omega)]
  rw [show (3600000000000 : Int) * hours = 1000000000 * (3600 * hours) by ring]
  exact Int.mul_fdiv_cancel_left _ (by norm_num)

theorem b64val_b64char : ∀ n < 64, b64val (b64char n) = some n := by decide

theorem alphabet_length : alphabet.length = 64 := rfl

theorem b64char_toNat_lt (n : Nat) : (b64char n).toNat < 256 := by
  by_cases h : n < 64
  · revert n h
    decide
  · unfold b64char List.getD
    rw [List.get?_eq_none.mpr (by rw [alphabet_length]; omega)]
    decide

theorem b64char_ne_dot (n : Nat) : b64char n ≠ '.' := by
  by_cases h : n < 64
  · revert n h
    decide
  · unfold b64char List.getD
    rw [List.get?_eq_none.mpr (by rw [alphabet_length]; omega)]
    decide

theorem b64encode_spec (P : Char → Prop) (hP : ∀ n, P (b64char n)) :
    ∀ bs : List Nat, ∀ c ∈ b64encode bs, P c
  | [] => by simp [b64encode]
  | [b1] => by
    simp only [b64encode, List.mem_cons, List.not_mem_nil, or_false]
    rintro c (rfl | rfl) <;> apply hP
  | [b1, b2] => by
    simp only [b64encode, List.mem_cons, List.not_mem_nil, or_false]
    rintro c (rfl | rfl | rfl) <;> apply hP
  | b1 :: b2 :: b3 :: rest => by
    have ih := b64encode_spec P hP rest
    rw [b64encode]
    simp only [List.mem_cons]
    rintro c (rfl | rfl | rfl | rfl | hc)
    · apply hP
    · apply hP
    · apply hP
    · apply hP
    · exact ih c hc

theorem b64_roundtrip : ∀ bs : List Nat, (∀ b ∈ bs, b < 256) →
    b64decode (b64encode bs) = some bs
  | [], _ => rfl
  | [b1], h => by
    have h1 : b1 < 256 := h b1 (by simp)
    rw [b64encode]
    rw [b64decode]
    rw [b64val_b64char _ (by omega), b64val_b64char _ (by omega)]
    simp only [Option.bind_eq_bind, Option.some_bind, Option.pure_def, Option.some.injEq, List.cons.injEq, and_true]
    omega
  | [b1, b2], h => by
    have h1 : b1 < 256 := h b1 (by simp)
    have h2 : b2 < 256 := h b2 (by simp)
    rw [b64encode]
    rw [b64decode]
    rw [b64val_b64char _ (by omega), b64val_b64char _ (by omega),
      b64val_b64char _ (by omega)]
    simp only [Option.bind_eq_bind, Option.some_bind, Option.pure_def, Option.some.injEq, List.cons.injEq, and_true]
    omega
  | b1 :: b2 :: b3 :: rest, h => by
    have h1 : b1 < 256 := h b1 (by simp)
    have h2 : b2 < 256 := h b2 (by simp)
    have h3 : b3 < 256 := h b3 (by simp)
    have ih := b64_roundtrip rest (fun b hb => h b (by simp [hb]))
    rw [b64encode]
    rw [show ∀ x1 x2 x3 x4, b64decode (x1 :: x2 :: x3 :: x4 :: b64encode rest) = do
        let v1 ← b64val x1
        let v2 ← b64val x2
        let v3 ← b64val x3
        let v4 ← b64val x4
        let ds ← b64decode (b64encode rest)
        pure ((v1 * 4 + v2 / 16) :: (v2 % 16 * 16 + v3 / 4) :: (v3 % 4 * 64 + v4) :: ds)
      from fun _ _ _ _ => rfl]
    rw [b64val_b64char _ (by omega), b64val_b64char _ (by omega),
      b64val_b64char _ (by omega), b64val_b64char _ (by omega), ih]
    simp only [Option.bind_eq_bind, Option.some_bind, Option.pure_def, Option.some.injEq, List.cons.injEq, and_true]
    omega

theorem Char_toNat_lt (ch : Char) : ch.toNat < 1114112 := by
  have hv : ch.toNat.isValidChar := ch.valid
  rcases hv with h | ⟨_, h2⟩ <;> omega

theorem parseChars_255 (r : List Nat) : parseChars (255 :: r) = some ([], r) := by
  match r with
  | [] => rfl
  | [b1] => rfl
  | b1 :: b2 :: rest2 => rfl

theorem parseChars_encChars (r : List Nat) : ∀ cs,
    parseChars (encChars cs ++ r) = some (cs, r)
  | [] => by
    rw [show encChars [] ++ r = 255 :: r from rfl]
    exact parseChars_255 r
  | ch :: cs => by
    have hlt := Char_toNat_lt ch
    have hne : ¬ ch.toNat / 65536 = 255 := by omega
    have ih := parseChars_encChars r cs
    have harith : ch.toNat / 65536 * 65536 + ch.toNat / 256 % 256 * 256 + ch.toNat % 256
        = ch.toNat := by omega
    simp only [encChars, List.cons_append]
    rw [parseChars]
    simp only [hne, if_false, ih, harith, Char.ofNat_toNat]

theorem encChars_lt : ∀ cs, ∀ b ∈ encChars cs, b < 256
  | [] => by simp [encChars]
  | ch :: cs => by
    have hlt := Char_toNat_lt ch
    have ih := encChars_lt cs
    simp only [encChars, List.mem_cons]
    rintro b (rfl | rfl | rfl | hb)
    · omega
    · omega
    · omega
    · exact ih b hb

theorem digits255F_zero : ∀ fuel, digits255F fuel 0 = []
  | 0 => rfl
  | _ + 1 => by rw [digits255F, if_pos rfl]

theorem digits255F_eq_of_le : ∀ f1 : Nat, ∀ f2 n : Nat, n ≤ f1 → n ≤ f2 →
    digits255F f1 n = digits255F f2 n
  | 0, f2, n, h1, _ => by
    have : n = 0 := by omega
    subst this
    rw [digits255F_zero, digits255F_zero]
  | f1 + 1, f2, n, h1, h2 => by
    by_cases hn : n = 0
    · subst hn
      rw [digits255F_zero, digits255F_zero]
    · obtain ⟨f3, rfl⟩ : ∃ f3, f2 = f3 + 1 := ⟨f2 - 1, by omega⟩
      rw [digits255F, digits255F, if_neg hn, if_neg hn]
      have ih := digits255F_eq_of_le f1 f3 (n / 255) (by omega) (by omega)
      rw [ih]

theorem digits255_eq (n : Nat) :
    digits255 n = if n = 0 then [] else n % 255 :: digits255 (n / 255) := by
  by_cases hn : n = 0
  · subst hn
    rw [if_pos rfl]
    exact digits255F_zero 0
  · rw [if_neg hn]
    unfold digits255
    obtain ⟨m, rfl⟩ : ∃ m, n = m + 1 := ⟨n - 1, by omega⟩
    rw [digits255F, if_neg (by omega)]
    rw [digits255F_eq_of_le m ((m + 1) / 255) ((m + 1) / 255) (by omega) (by omega)]

theorem parseDigits_digits255 (r : List Nat) (n : Nat) :
    parseDigits (digits255 n ++ 255 :: r) = some (n, r) := by
  induction n using Nat.strong_induction_on with
  | _ n ih =>
    by_cases h : n = 0
    · subst h
      rw [digits255_eq]
      simp [parseDigits]
    · rw [digits255_eq, if_neg h]
      have ihh := ih (n / 255) (by omega)
      have hne : ¬ n % 255 = 255 := by omega
      simp only [List.cons_append]
      rw [parseDigits]
      simp only [hne, if_false, ihh]
      have : n % 255 + 255 * (n / 255) = n := by omega
      rw [this]

theorem digits255_lt (n : Nat) : ∀ b ∈ digits255 n, b < 256 := by
  induction n using Nat.strong_induction_on with
  | _ n ih =>
    by_cases h : n = 0
    · subst h
      rw [digits255_eq]
      simp
    · rw [digits255_eq, if_neg h]
      intro b hb
      rcases List.mem_cons.mp hb with rfl | hb2
      · omega
      · exact ih (n / 255) (by omega) b hb2

theorem parseExp_encExp (r : List Nat) (e : Option Int) :
    parseExp (encExp e ++ r) = some (e, r) := by
  cases e with
  | none => simp [encExp, parseExp]
  | some n =>
    by_cases h : n < 0
    · rw [encExp, if_pos h]
      rw [show (1 :: 1 :: (digits255 n.natAbs ++ [255])) ++ r
          = 1 :: 1 :: (digits255 n.natAbs ++ 255 :: r) by simp]
      rw [parseExp, parseDigits_digits255]
      show some (some (-(n.natAbs : Int)), r) = some (some n, r)
      have he : -(n.natAbs : Int) = n := by omega
      rw [he]
    · rw [encExp, if_neg h]
      rw [show (1 :: 0 :: (digits255 n.natAbs ++ [255])) ++ r
          = 1 :: 0 :: (digits255 n.natAbs ++ 255 :: r) by simp]
      rw [parseExp, parseDigits_digits255]
      show some (some ((n.natAbs : Int)), r) = some (some n, r)
      have he : (n.natAbs : Int) = n := by omega
      rw [he]

theorem encExp_lt (e : Option Int) : ∀ b ∈ encExp e, b < 256 := by
  cases e with
  | none => simp [encExp]
  | some n =>
    have hd := digits255_lt n.natAbs
    intro b hb
    rw [encExp] at hb
    split at hb <;>
    · rcases List.mem_cons.mp hb with rfl | hb2
      · omega
      · rcases List.mem_cons.mp hb2 with rfl | hb3
        · omega
        · rcases List.mem_append.mp hb3 with hb4 | hb5
          · exact hd b hb4
          · simp only [List.mem_singleton] at hb5
            omega

theorem parseChars_encStr (s : String) (r : List Nat) :
    parseChars (encStr s ++ r) = some (s.data, r) :=
  parseChars_encChars r s.data

theorem encStr_lt (s : String) : ∀ b ∈ encStr s, b < 256 :=
  encChars_lt s.data

theorem String_mk_data (s : String) : String.mk s.data = s := rfl

theorem parseHeader_headerBytes (alg : String) :
    parseHeader (headerBytes alg) = some alg := by
  unfold parseHeader headerBytes
  rw [show encStr alg = encStr alg ++ [] by simp, parseChars_encStr]

theorem headerBytes_lt (alg : String) : ∀ b ∈ headerBytes alg, b < 256 :=
  encStr_lt alg

theorem parseClaims_claimsBytes (c : JwtClaim) :
    parseClaims (claimsBytes c) = some c := by
  rw [show claimsBytes c
      = encStr c.ID ++ (encStr c.Email ++ (encStr c.Issuer ++ (encExp c.ExpiresAt ++ [])))
    by simp [claimsBytes]]
  simp only [parseClaims, parseChars_encStr, parseExp_encExp, String_mk_data]

theorem claimsBytes_lt (c : JwtClaim) : ∀ b ∈ claimsBytes c, b < 256 := by
  intro b hb
  unfold claimsBytes at hb
  rcases List.mem_append.mp hb with hb1 | hb4
  · rcases List.mem_append.mp hb1 with hb2 | hb3
    · rcases List.mem_append.mp hb2 with hb5 | hb6
      · exact encStr_lt _ b hb5
      · exact encStr_lt _ b hb6
    · exact encStr_lt _ b hb3
  · exact encExp_lt _ b hb4

theorem mac_inj_secret {alg s1 s2 : String} {msg : List Nat}
    (h : mac alg s1 msg = mac alg s2 msg) : s1 = s2 := by
  unfold mac at h
  have h2 : encStr s1 ++ msg = encStr s2 ++ msg := List.append_cancel_left h
  have e1 := parseChars_encStr s1 msg
  have e2 := parseChars_encStr s2 msg
  rw [h2] at e1
  rw [e1] at e2
  have hd : s1.data = s2.data := by injection e2 with e3; injection e3
  calc s1 = String.mk s1.data := rfl
    _ = String.mk s2.data := by rw [hd]
    _ = s2 := rfl

theorem mac_lt (alg secret : String) (msg : List Nat)
    (hmsg : ∀ b ∈ msg, b < 256) : ∀ b ∈ mac alg secret msg, b < 256 := by
  intro b hb
  unfold mac at hb
  rcases List.mem_append.mp hb with h1 | h2
  · exact encStr_lt _ b h1
  · rcases List.mem_append.mp h2 with h3 | h4
    · exact encStr_lt _ b h3
    · exact hmsg b h4

theorem splitOnDot_no_dot : ∀ cs : List Char, '.' ∉ cs → splitOnDot cs = [cs]
  | [], _ => rfl
  | c :: rest, h => by
    have hc : ¬ c = '.' := fun hc => h (by simp [hc])
    have ih := splitOnDot_no_dot rest (fun hr => h (List.mem_cons_of_mem _ hr))
    rw [splitOnDot, if_neg hc, ih]

theorem splitOnDot_append_dot : ∀ cs : List Char, '.' ∉ cs → ∀ r,
    splitOnDot (cs ++ '.' :: r) = cs :: splitOnDot r
  | [], _, r => by
    rw [List.nil_append, splitOnDot, if_pos rfl]
  | c :: rest, h, r => by
    have hc : ¬ c = '.' := fun hc => h (by simp [hc])
    have ih := splitOnDot_append_dot rest (fun hr => h (List.mem_cons_of_mem _ hr)) r
    rw [List.cons_append, splitOnDot, if_neg hc, ih]

theorem b64encode_no_dot (bs : List Nat) : '.' ∉ b64encode bs := by
  intro h
  exact b64encode_spec (· ≠ '.') b64char_ne_dot bs '.' h rfl

theorem b64encode_toNat_lt (bs : List Nat) : ∀ c ∈ b64encode bs, c.toNat < 256 :=
  b64encode_spec (Char.toNat · < 256) b64char_toNat_lt bs

theorem msgOf_lt (alg : String) (c : JwtClaim) : ∀ b ∈ msgOf alg c, b < 256 := by
  intro b hb
  unfold msgOf at hb
  rcases List.mem_map.mp hb with ⟨ch, hch, rfl⟩
  rcases List.mem_append.mp hch with h1 | h2
  · exact b64encode_toNat_lt _ ch h1
  · rcases List.mem_cons.mp h2 with rfl | h3
    · decide
    · exact b64encode_toNat_lt _ ch h3

theorem signedString_eq (alg secret : String) (c : JwtClaim) :
    signedString alg secret c
      = b64encode (headerBytes alg) ++ '.' :: b64encode (claimsBytes c) ++ '.' ::
          b64encode (mac alg secret (msgOf alg c)) := rfl

theorem splitOnDot_signedString (alg secret : String) (c : JwtClaim) :
    splitOnDot (signedString alg secret c)
      = [b64encode (headerBytes alg), b64encode (claimsBytes c),
          b64encode (mac alg secret (msgOf alg c))] := by
  rw [signedString_eq, List.append_assoc, List.cons_append]
  rw [splitOnDot_append_dot _ (b64encode_no_dot _),
    splitOnDot_append_dot _ (b64encode_no_dot _),
    splitOnDot_no_dot _ (b64encode_no_dot _)]

/-- Full evaluation of the v4 parser on a well-formed token signed with
`sk`, verified with `vk`: with an HMAC-family algorithm in the header,
the outcome is decided by the expiration flag and by whether the
recomputed MAC matches. -/
theorem parseWithClaims_signedString (vk sk : String) (now : Int) (alg : String)
    (halg : isHMACAlg alg = true) (c : JwtClaim) :
    parseWithClaims vk now (signedString alg sk c)
      = (if (! claimsValid now c.ExpiresAt)
            || ! (mac alg sk (msgOf alg c) == mac alg vk (msgOf alg c))
        then .error (.validation (! claimsValid now c.ExpiresAt)
            (! (mac alg sk (msgOf alg c) == mac alg vk (msgOf alg c))))
        else .ok c) := by
  have hs := splitOnDot_signedString alg sk c
  have hh := b64_roundtrip _ (headerBytes_lt alg)
  have hc := b64_roundtrip _ (claimsBytes_lt c)
  have hm := b64_roundtrip _ (mac_lt alg sk (msgOf alg c) (msgOf_lt alg c))
  simp only [parseWithClaims, hs, hh, hc, hm, parseHeader_headerBytes,
    parseClaims_claimsBytes, halg, if_true]
  rfl

/-- Verifying with the signing key: outcome decided by expiration. -/
theorem parse_signed_same_key (key : String) (now : Int) (alg : String)
    (halg : isHMACAlg alg = true) (c : JwtClaim) :
    parseWithClaims key now (signedString alg key c)
      = if claimsValid now c.ExpiresAt then .ok c
        else .error (.validation true false) := by
  rw [parseWithClaims_signedString key key now alg halg c]
  rw [beq_self_eq_true]
  cases hcv : claimsValid now c.ExpiresAt <;> simp

/-- Verifying with a different key: invalid signature. -/
theorem parse_signed_cross_key {sk vk : String} (hne : sk ≠ vk) (now : Int)
    (alg : String) (halg : isHMACAlg alg = true) (c : JwtClaim) :
    parseWithClaims vk now (signedString alg sk c)
      = .error (.validation (! claimsValid now c.ExpiresAt) true) := by
  rw [parseWithClaims_signedString vk sk now alg halg c]
  have hmac : (mac alg sk (msgOf alg c) == mac alg vk (msgOf alg c)) = false := by
    rw [beq_eq_false_iff_ne]
    exact fun h => hne (mac_inj_secret h)
  rw [hmac]
  simp

theorem newJwtWrapper_ok {s i : String} {h : Int} {j : JwtWrapper}
    (hj : newJwtWrapper s i h = .ok j) : j = ⟨s, i, h⟩ := by
  unfold newJwtWrapper at hj
  split_ifs at hj
  injection hj with h2
  exact h2.symm

/-- Evaluation of the parser on a token whose signature segment `s2` is
arbitrary (for instance, tampered): if `s2` does not decode to the
correct MAC, the outcome is a signature-invalid validation error. -/
theorem parse_tampered (secret : String) (now : Int) (alg : String)
    (halg : isHMACAlg alg = true) (c : JwtClaim) (s2 : List Char)
    (hdot : '.' ∉ s2)
    (hdiff : b64decode s2 ≠ some (mac alg secret (msgOf alg c))) :
    parseWithClaims secret now
      (b64encode (headerBytes alg) ++ '.' :: b64encode (claimsBytes c) ++ '.' :: s2)
      = .error (.validation (! claimsValid now c.ExpiresAt) true) := by
  have hsplit : splitOnDot
      (b64encode (headerBytes alg) ++ '.' :: b64encode (claimsBytes c) ++ '.' :: s2)
      = [b64encode (headerBytes alg), b64encode (claimsBytes c), s2] := by
    rw [List.append_assoc, List.cons_append]
    rw [splitOnDot_append_dot _ (b64encode_no_dot _),
      splitOnDot_append_dot _ (b64encode_no_dot _),
      splitOnDot_no_dot _ hdot]
  have hh := b64_roundtrip _ (headerBytes_lt alg)
  have hc := b64_roundtrip _ (claimsBytes_lt c)
  have hsig : (b64decode s2
      == some (mac alg secret ((b64encode (headerBytes alg) ++
        '.' :: b64encode (claimsBytes c)).map Char.toNat))) = false := by
    rw [beq_eq_false_iff_ne]
    exact hdiff
  simp only [parseWithClaims, hsplit, hh, hc, parseHeader_headerBytes,
    parseClaims_claimsBytes, halg, if_true, hsig]
  simp

/-- Claim C2, counterexample: `NewJwtWrapper` with `validityHours = -1`
succeeds, although the claim states that every call with
`validityHours ≤ 0` fails with a configuration error. -/
theorem newJwtWrapper_accepts_negative_hours :
    newJwtWrapper "secret" "issuer" (-1) = .ok ⟨"secret", "issuer", -1⟩ := rfl

/-- Claim C2 (amended): `NewJwtWrapper secret issuer validityHours`
fails if and only if the secret is empty, the issuer is empty, or
`validityHours = 0` (not `≤ 0`: negative values are accepted). -/
theorem newJwtWrapper_error_iff (s i : String) (h : Int) :
    (newJwtWrapper s i h).isOk = false ↔ s = "" ∨ i = "" ∨ h = 0 := by
  unfold newJwtWrapper
  split_ifs with h1 h2 h3 <;> simp_all [Except.isOk, Except.toBool]

/-- Claim C3, counterexample: at `validityHours = 2562048` the source's
`time.Hour * time.Duration(validityHours)` wraps in `int64` to a
negative duration of about −292 years, so the freshly issued token is
already expired and validating it fails — refuting the round trip for
every `validityHours > 0`. -/
theorem validateToken_overflow_hours_expired :
    validateToken ⟨"k", "iss", 2562048⟩ 0
      (generateToken ⟨"k", "iss", 2562048⟩ 0 "u" "e")
      = (none, some (.validation true false)) := by decide

/-- Claim C3 (amended): for every successfully constructed wrapper with
`0 < validityHours ≤ 2562047` (so that `time.Hour * validityHours` does
not wrap in `int64`) and every `(subjectID, subjectLabel)`, validating
the freshly issued token succeeds and returns claims carrying the same
`ID` and `Email`. -/
theorem validateToken_generateToken_roundtrip (s i uuid email : String)
    (h t : Int) (j : JwtWrapper) (hj : newJwtWrapper s i h = .ok j)
    (hpos : 0 < h) (hbound : h ≤ 2562047) :
    validateToken j t (generateToken j t uuid email)
      = (some ⟨uuid, email, i, some (t + 3600 * h)⟩, none) := by
  obtain rfl := newJwtWrapper_ok hj
  have he : hoursToSeconds h = 3600 * h := hoursToSeconds_eq h (by omega) hbound
  simp only [validateToken, generateToken, he]
  rw [parse_signed_same_key s t "HS256" (by decide)
    ⟨uuid, email, i, some (t + 3600 * h)⟩]
  have hcv : claimsValid t (some (t + 3600 * h)) = true := by
    unfold claimsValid
    simp only [decide_eq_true_eq]
    omega
  rw [hcv]
  simp only [if_true]
  rw [if_neg (by omega : ¬ t + 3600 * h < t)]

/-- Claim C3 witness. -/
theorem validateToken_generateToken_roundtrip_witness :
    validateToken ⟨"k", "iss", 1⟩ 0 (generateToken ⟨"k", "iss", 1⟩ 0 "u" "e")
      = (some ⟨"u", "e", "iss", some 3600⟩, none) := by
  have := validateToken_generateToken_roundtrip "k" "iss" "u" "e" 1 0
    ⟨"k", "iss", 1⟩ rfl (by decide) (by decide)
  simpa using this

/-- Claim C4: a token with a valid HMAC signature under the configured
secret but no expiration field at all is accepted at every time `t` —
the expiration check is skipped when `ExpiresAt` is nil, so such a token
never expires. -/
theorem validateToken_skips_absent_expiration (j : JwtWrapper) (t : Int)
    (c : JwtClaim) (hexp : c.ExpiresAt = none) :
    validateToken j t (signedString "HS256" j.SecretKey c) = (some c, none) := by
  unfold validateToken
  rw [parse_signed_same_key j.SecretKey t "HS256" (by decide) c, hexp]
  simp [claimsValid, hexp]

/-- Claim C4 witness. -/
theorem validateToken_skips_absent_expiration_witness :
    validateToken ⟨"k", "iss", 1⟩ 99999999
      (signedString "HS256" "k" ⟨"u", "e", "iss", none⟩)
      = (some ⟨"u", "e", "iss", none⟩, none) :=
  validateToken_skips_absent_expiration ⟨"k", "iss", 1⟩ 99999999
    ⟨"u", "e", "iss", none⟩ rfl

/-- Claim C5: a structurally well-formed token with the supported
algorithm and a valid signature whose expiration is at or before the
current time is rejected as expired (the boundary `ExpiresAt = now`
included, since validity requires `now` strictly before `ExpiresAt`). -/
theorem validateToken_rejects_expired (j : JwtWrapper) (t e : Int)
    (c : JwtClaim) (hexp : c.ExpiresAt = some e) (hle : e ≤ t) :
    validateToken j t (signedString "HS256" j.SecretKey c)
      = (none, some (.validation true false)) := by
  unfold validateToken
  rw [parse_signed_same_key j.SecretKey t "HS256" (by decide) c, hexp]
  have hcv : claimsValid t (some e) = false := by
    unfold claimsValid
    simp only [decide_eq_false_iff_not]
    omega
  rw [hcv]
  simp

/-- Claim C5 witness (boundary case `ExpiresAt = now`). -/
theorem validateToken_rejects_expired_witness :
    validateToken ⟨"k", "iss", 1⟩ 0
      (signedString "HS256" "k" ⟨"u", "e", "iss", some 0⟩)
      = (none, some (.validation true false)) :=
  validateToken_rejects_expired ⟨"k", "iss", 1⟩ 0 0
    ⟨"u", "e", "iss", some 0⟩ rfl (by decide)

/-- Claim C6: a wrapper constructed with `expirationHours = -1`
(construction succeeds) issues tokens whose expiration lies in the
past, so validating immediately (same time `t`) fails as expired. -/
theorem validateToken_negative_validity_expired (s i uuid email : String)
    (t : Int) (j : JwtWrapper) (hj : newJwtWrapper s i (-1) = .ok j) :
    validateToken j t (generateToken j t uuid email)
      = (none, some (.validation true false)) := by
  obtain rfl := newJwtWrapper_ok hj
  have he : hoursToSeconds (-1) = 3600 * (-1) :=
    hoursToSeconds_eq (-1) (by decide) (by decide)
  simp only [validateToken, generateToken, he]
  rw [parse_signed_same_key s t "HS256" (by decide)
    ⟨uuid, email, i, some (t + 3600 * (-1))⟩]
  have hcv : claimsValid t (some (t + 3600 * (-1))) = false := by
    unfold claimsValid
    simp only [decide_eq_false_iff_not]
    omega
  rw [hcv]
  simp

/-- Claim C6 witness. -/
theorem validateToken_negative_validity_expired_witness :
    validateToken ⟨"k", "iss", -1⟩ 0 (generateToken ⟨"k", "iss", -1⟩ 0 "u" "e")
      = (none, some (.validation true false)) :=
  validateToken_negative_validity_expired "k" "iss" "u" "e" 0
    ⟨"k", "iss", -1⟩ rfl

/-- Claim C7: a token issued by a wrapper with secret A, validated under
a wrapper with a different secret B, fails with an invalid-signature
validation error (at every validation time). -/
theorem validateToken_cross_secret_invalid_signature
    (sA iA sB iB uuid email : String) (hA hB t1 t2 : Int)
    (jA jB : JwtWrapper) (hjA : newJwtWrapper sA iA hA = .ok jA)
    (hjB : newJwtWrapper sB iB hB = .ok jB) (hne : sA ≠ sB) :
    (validateToken jB t2 (generateToken jA t1 uuid email)).1 = none ∧
    ∃ expFlag, (validateToken jB t2 (generateToken jA t1 uuid email)).2
      = some (.validation expFlag true) := by
  obtain rfl := newJwtWrapper_ok hjA
  obtain rfl := newJwtWrapper_ok hjB
  simp only [validateToken, generateToken]
  rw [parse_signed_cross_key hne t2 "HS256" (by decide)
    ⟨uuid, email, iA, some (t1 + hoursToSeconds hA)⟩]
  exact ⟨rfl, _, rfl⟩

/-- Claim C7 witness. -/
theorem validateToken_cross_secret_invalid_signature_witness :
    (validateToken ⟨"b", "iss", 1⟩ 0 (generateToken ⟨"a", "iss", 1⟩ 0 "u" "e")).1
      = none ∧
    ∃ expFlag, (validateToken ⟨"b", "iss", 1⟩ 0
      (generateToken ⟨"a", "iss", 1⟩ 0 "u" "e")).2
      = some (.validation expFlag true) :=
  validateToken_cross_secret_invalid_signature "a" "iss" "b" "iss" "u" "e"
    1 1 0 0 ⟨"a", "iss", 1⟩ ⟨"b", "iss", 1⟩ rfl rfl (by decide)

/-- Claim C9: `ValidateToken` never compares the token's issuer with the
wrapper's configured issuer — a token signed with the same secret but a
different issuer, unexpired, is accepted and its claims returned. -/
theorem validateToken_ignores_issuer_claim (j : JwtWrapper) (t e : Int)
    (c : JwtClaim) (hexp : c.ExpiresAt = some e) (hlt : t < e)
    (_hiss : c.Issuer ≠ j.Issuer) :
    validateToken j t (signedString "HS256" j.SecretKey c) = (some c, none) := by
  unfold validateToken
  rw [parse_signed_same_key j.SecretKey t "HS256" (by decide) c, hexp]
  have hcv : claimsValid t (some e) = true := by
    unfold claimsValid
    simp only [decide_eq_true_eq]
    omega
  rw [hcv]
  simp only [if_true, hexp]
  rw [if_neg (by omega : ¬ e < t)]

/-- Claim C9 witness. -/
theorem validateToken_ignores_issuer_claim_witness :
    validateToken ⟨"k", "iss", 1⟩ 0
      (signedString "HS256" "k" ⟨"u", "e", "other-issuer", some 10⟩)
      = (some ⟨"u", "e", "other-issuer", some 10⟩, none) :=
  validateToken_ignores_issuer_claim ⟨"k", "iss", 1⟩ 0 10
    ⟨"u", "e", "other-issuer", some 10⟩ rfl (by decide) (by decide)

/-- Claim C10: every input that is not three dot-separated segments
whose header and claims segments decode to the expected structure (for
example `"not-a-token"`, which has one segment) fails as malformed with
no claims; and on every input the Go result pair is exclusive — a
failure returns nil claims with a non-nil error, a success returns
claims with a nil error, never both. -/
theorem validateToken_malformed_and_exclusive :
    (∀ (j : JwtWrapper) (t : Int) (tok : List Char), malformedInput tok = true →
      validateToken j t tok = (none, some .malformed)) ∧
    malformedInput "not-a-token".data = true ∧
    (∀ (j : JwtWrapper) (t : Int) (tok : List Char),
      ((validateToken j t tok).1 = none ∧ (validateToken j t tok).2 ≠ none) ∨
      ((validateToken j t tok).1 ≠ none ∧ (validateToken j t tok).2 = none)) := by
  refine ⟨?_, by decide, ?_⟩
  · intro j t tok hm
    cases hsp : splitOnDot tok with
    | nil => simp [validateToken, parseWithClaims, hsp]
    | cons s1 rest1 =>
      cases rest1 with
      | nil => simp [validateToken, parseWithClaims, hsp]
      | cons s2 rest2 =>
        cases rest2 with
        | nil => simp [validateToken, parseWithClaims, hsp]
        | cons s3 rest3 =>
          cases rest3 with
          | cons s4 rest4 => simp [validateToken, parseWithClaims, hsp]
          | nil =>
            simp only [malformedInput, hsp] at hm
            cases hhb : b64decode s1 with
            | none => simp [validateToken, parseWithClaims, hsp, hhb]
            | some hb =>
              simp only [hhb] at hm
              cases hph : parseHeader hb with
              | none => simp [validateToken, parseWithClaims, hsp, hhb, hph]
              | some alg =>
                simp only [hph] at hm
                cases hcb : b64decode s2 with
                | none =>
                  simp [validateToken, parseWithClaims, hsp, hhb, hph, hcb]
                | some cb =>
                  simp only [hcb] at hm
                  cases hpc : parseClaims cb with
                  | none =>
                    simp [validateToken, parseWithClaims, hsp, hhb, hph, hcb, hpc]
                  | some cl =>
                    simp only [hpc] at hm
                    exact absurd hm (by simp)
  · intro j t tok
    unfold validateToken
    cases hp : parseWithClaims j.SecretKey t tok with
    | error e => simp
    | ok claims =>
      cases hexp : claims.ExpiresAt with
      | none => simp [hexp]
      | some e =>
        by_cases hlt : e < t
        · simp [hexp, hlt]
        · simp [hexp, hlt]

/-- Claim C10 witness: the malformed input `"not-a-token"` yields nil
claims and the malformed error. -/
theorem validateToken_malformed_and_exclusive_witness :
    validateToken ⟨"k", "iss", 1⟩ 0 "not-a-token".data
      = (none, some .malformed) :=
  validateToken_malformed_and_exclusive.1 ⟨"k", "iss", 1⟩ 0
    "not-a-token".data (by decide)

/-- Claim C1, counterexample: a token whose header declares `HS384` —
an algorithm other than the `HS256` scheme the service signs with — is
not rejected: the key function's check is a type assertion on
`*jwt.SigningMethodHMAC`, which the whole HMAC family satisfies, so a
correctly signed `HS384` token is accepted. -/
theorem validateToken_accepts_HS384_header :
    validateToken ⟨"k", "iss", 1⟩ 0
      (signedString "HS384" "k" ⟨"u", "e", "iss", none⟩)
      = (some ⟨"u", "e", "iss", none⟩, none) := by decide

/-- Claim C1 (amended): for every token that passes structural parsing
and whose header declares an algorithm outside the HMAC family
(`HS256`/`HS384`/`HS512`) — including `none` — `ValidateToken` fails
with the unsupported-algorithm error, for every wrapper (in particular
for every secret: the check precedes any use of the secret) and every
time. -/
theorem validateToken_non_hmac_alg_unsupported
    (tok hSeg cSeg sSeg : List Char)
    (hsplit : splitOnDot tok = [hSeg, cSeg, sSeg])
    (hb cb : List Nat) (alg : String) (cl : JwtClaim)
    (hhb : b64decode hSeg = some hb) (halg : parseHeader hb = some alg)
    (hcb : b64decode cSeg = some cb) (hcl : parseClaims cb = some cl)
    (hnot : isHMACAlg alg = false) :
    ∀ (j : JwtWrapper) (t : Int),
      validateToken j t tok = (none, some .unsupportedAlg) := by
  intro j t
  simp only [validateToken, parseWithClaims, hsplit, hhb, halg, hcb, hcl, hnot]
  simp

/-- Claim C1 witness: a signed token declaring the algorithm `none` is
rejected as unsupported (before the secret matters). -/
theorem validateToken_non_hmac_alg_unsupported_witness :
    validateToken ⟨"k", "iss", 1⟩ 0
      (signedString "none" "x" ⟨"u", "e", "iss", none⟩)
      = (none, some .unsupportedAlg) :=
  validateToken_non_hmac_alg_unsupported
    (signedString "none" "x" ⟨"u", "e", "iss", none⟩)
    (b64encode (headerBytes "none"))
    (b64encode (claimsBytes ⟨"u", "e", "iss", none⟩))
    (b64encode (mac "none" "x" (msgOf "none" ⟨"u", "e", "iss", none⟩)))
    (splitOnDot_signedString "none" "x" ⟨"u", "e", "iss", none⟩)
    (headerBytes "none") (claimsBytes ⟨"u", "e", "iss", none⟩)
    "none" ⟨"u", "e", "iss", none⟩
    (b64_roundtrip _ (headerBytes_lt "none"))
    (parseHeader_headerBytes "none")
    (b64_roundtrip _ (claimsBytes_lt ⟨"u", "e", "iss", none⟩))
    (parseClaims_claimsBytes ⟨"u", "e", "iss", none⟩)
    (by decide) ⟨"k", "iss", 1⟩ 0

/-- Claim C8, counterexample: flipping bit 1 of the final character of
the signature segment of a valid token yields a *different* token that
`ValidateToken` still accepts — Go's non-strict base64 decoding ignores
the trailing bits of the final character, so the flipped segment decodes
to the same MAC bytes.  This refutes that every single-bit flip in the
signature segment fails with an invalid-signature error. -/
theorem validateToken_accepts_trailing_bit_flip :
    generateToken ⟨"k", "i", 1⟩ 0 "u" "eb"
      = b64encode (headerBytes "HS256")
        ++ '.' :: b64encode (claimsBytes ⟨"u", "eb", "i", some 3600⟩)
        ++ '.' :: b64encode (mac "HS256" "k" (msgOf "HS256" ⟨"u", "eb", "i", some 3600⟩))
    ∧ flipBitAt
        (b64encode (mac "HS256" "k" (msgOf "HS256" ⟨"u", "eb", "i", some 3600⟩))) 93 1
      ≠ b64encode (mac "HS256" "k" (msgOf "HS256" ⟨"u", "eb", "i", some 3600⟩))
    ∧ validateToken ⟨"k", "i", 1⟩ 0
        (b64encode (headerBytes "HS256")
          ++ '.' :: b64encode (claimsBytes ⟨"u", "eb", "i", some 3600⟩)
          ++ '.' :: flipBitAt
            (b64encode (mac "HS256" "k" (msgOf "HS256" ⟨"u", "eb", "i", some 3600⟩))) 93 1)
        = (some ⟨"u", "eb", "i", some 3600⟩, none) := by decide

/-- Claim C8 (amended): for a wrapper with `0 < validityHours ≤ 2562047`
(no `int64` wrap of the duration), flipping a bit of the signature
segment of a fresh valid token makes `ValidateToken` fail with an
invalid-signature error, provided the flip does not produce the `.`
separator and the flipped segment no longer decodes to the correct MAC
bytes.  (Flips
confined to the ignored trailing bits of the final base64url character
decode to the same bytes and leave the token accepted — see the
counterexample.) -/
theorem validateToken_flipped_sig_invalid (s i uuid email : String)
    (h t : Int) (j : JwtWrapper) (hj : newJwtWrapper s i h = .ok j)
    (hpos : 0 < h) (hbound : h ≤ 2562047) (p k : Nat)
    (hdot : '.' ∉ flipBitAt
      (b64encode (mac "HS256" s (msgOf "HS256" ⟨uuid, email, i, some (t + 3600 * h)⟩))) p k)
    (hdiff : b64decode (flipBitAt
        (b64encode (mac "HS256" s (msgOf "HS256" ⟨uuid, email, i, some (t + 3600 * h)⟩))) p k)
      ≠ some (mac "HS256" s (msgOf "HS256" ⟨uuid, email, i, some (t + 3600 * h)⟩))) :
    generateToken j t uuid email
      = b64encode (headerBytes "HS256")
        ++ '.' :: b64encode (claimsBytes ⟨uuid, email, i, some (t + 3600 * h)⟩)
        ++ '.' :: b64encode (mac "HS256" s (msgOf "HS256" ⟨uuid, email, i, some (t + 3600 * h)⟩))
    ∧ validateToken j t
        (b64encode (headerBytes "HS256")
          ++ '.' :: b64encode (claimsBytes ⟨uuid, email, i, some (t + 3600 * h)⟩)
          ++ '.' :: flipBitAt
            (b64encode (mac "HS256" s (msgOf "HS256" ⟨uuid, email, i, some (t + 3600 * h)⟩))) p k)
        = (none, some (.validation false true)) := by
  obtain rfl := newJwtWrapper_ok hj
  have he : hoursToSeconds h = 3600 * h := hoursToSeconds_eq h (by omega) hbound
  constructor
  · show signedString "HS256" s ⟨uuid, email, i, some (t + hoursToSeconds h)⟩ = _
    rw [he]
    exact signedString_eq "HS256" s ⟨uuid, email, i, some (t + 3600 * h)⟩
  · simp only [validateToken]
    rw [parse_tampered s t "HS256" (by decide)
      ⟨uuid, email, i, some (t + 3600 * h)⟩ _ hdot hdiff]
    have hcv : claimsValid t (some (t + 3600 * h)) = true := by
      unfold claimsValid
      simp only [decide_eq_true_eq]
      omega
    simp [hcv]

/-- Claim C8 witness: flipping bit 0 of the first signature character
(which changes the decoded bytes) is rejected with an invalid-signature
error. -/
theorem validateToken_flipped_sig_invalid_witness :
    generateToken ⟨"k", "i", 1⟩ 0 "u" "eb"
      = b64encode (headerBytes "HS256")
        ++ '.' :: b64encode (claimsBytes ⟨"u", "eb", "i", some (0 + 3600 * 1)⟩)
        ++ '.' :: b64encode (mac "HS256" "k" (msgOf "HS256" ⟨"u", "eb", "i", some (0 + 3600 * 1)⟩))
    ∧ validateToken ⟨"k", "i", 1⟩ 0
        (b64encode (headerBytes "HS256")
          ++ '.' :: b64encode (claimsBytes ⟨"u", "eb", "i", some (0 + 3600 * 1)⟩)
          ++ '.' :: flipBitAt
            (b64encode (mac "HS256" "k" (msgOf "HS256" ⟨"u", "eb", "i", some (0 + 3600 * 1)⟩))) 0 0)
        = (none, some (.validation false true)) :=
  validateToken_flipped_sig_invalid "k" "i" "u" "eb" 1 0 ⟨"k", "i", 1⟩ rfl
    (by decide) (by decide) 0 0 (by decide) (by decide)

end JwtGo
